import Mathlib

/-!
# Verification of the TransIP libdns provider (`provider.go`)

Shallow embedding of `provider.go`: the zone-name normalisation `unFQDN` and the four
public operations `GetRecords`, `AppendRecords`, `DeleteRecords`, `SetRecords`.

Modelling conventions

* A Go `string` is a finite byte sequence (`List UInt8`).
* `time.Duration` is an `int64` count of nanoseconds: an `Int`, with the product of
  lines 68 and 86 reduced to the `int64` range explicitly.
* `libdns.Record` is an interface type; an interface value is either `nil` or a concrete
  record.  Calling the method `RR()` on the `nil` interface value is a run-time panic,
  so `Record.RR` returns an `Option` and every operation returns an `Outcome` that is
  either a normal return or a panic.
* A `[]libdns.Record` is `Slice.nil` (the nil slice) or `Slice.mk xs`.
* The methods `getDNSEntries`, `addDNSEntry`, `updateDNSEntry` and `removeDNSEntry` are
  defined outside `provider.go`.  Each operation takes the helper it calls as a
  parameter: a total step function over an explicit state `σ` (the remote zone
  together with the provider's client handle) that returns the Go result pair.
  `ε` is the type of non-nil `error` values, `κ` the type of `context.Context` values.
-/

set_option linter.unusedVariables false

namespace Transip

/-! ## Strings -/

/-- Go `string`: an immutable sequence of bytes. -/
abbrev GoString := List UInt8

/-- Byte sequence of an ASCII literal (used to write string constants). -/
def ascii (s : String) : GoString := s.toList.map (fun c => UInt8.ofNat c.toNat)

/-- Go `strings.HasSuffix`:
`len(s) >= len(suffix) && s[len(s)-len(suffix):] == suffix`. -/
def HasSuffix (s suffix : GoString) : Bool :=
  decide (s.length ≥ suffix.length) && s.drop (s.length - suffix.length) == suffix

/-- Go `strings.TrimSuffix`:
`if HasSuffix(s, suffix) { return s[:len(s)-len(suffix)] }; return s`. -/
def TrimSuffix (s suffix : GoString) : GoString :=
  if HasSuffix s suffix then s.take (s.length - suffix.length) else s

/-- Method `unFQDN`, lines 14-16: `return strings.TrimSuffix(fqdn, ".")`. -/
def unFQDN (fqdn : GoString) : GoString := TrimSuffix fqdn (ascii ".")

/-! ## Durations -/

/-- Go `time.Duration`: nanoseconds as an `int64`. -/
abbrev Duration := Int

/-- Go `time.Second`. -/
def Second : Duration := 1000000000

/-- Reduction of an integer to the two's-complement `int64` range. -/
def wrapInt64 (x : Int) : Int := (x + 2 ^ 63) % 2 ^ 64 - 2 ^ 63

/-- Go multiplication of two `time.Duration` values (wraps around on overflow). -/
def mulDuration (a b : Duration) : Duration := wrapInt64 (a * b)

/-! ## Records -/

/-- The struct `libdns.RR` (field `Type` is spelled `Typ`). -/
structure RR where
  Name : GoString
  TTL : Duration
  Typ : GoString
  Data : GoString
deriving DecidableEq

/-- A value of the interface type `libdns.Record`: the `nil` interface value, or a
concrete record, represented by the `libdns.RR` it stands for. -/
inductive Record where
  | nil
  | val (rr : Transip.RR)
deriving DecidableEq

/-- The method call `record.RR()`: a fresh copy of the record's `RR` struct, or `none`
when the receiver is the nil interface value (nil-dereference panic). -/
def Record.RR : Record → Option Transip.RR
  | .nil => none
  | .val rr => some rr

/-- A value of type `[]libdns.Record`. -/
inductive Slice where
  | nil
  | mk (xs : List Record)
deriving DecidableEq

/-- The elements of a slice, in index order (what `range` iterates over). -/
def Slice.elems : Slice → List Record
  | .nil => []
  | .mk xs => xs

/-- Go `append(s, x)` for a single element: always a non-nil slice. -/
def Slice.append (s : Slice) (x : Record) : Slice := .mk (s.elems ++ [x])

/-! ## Helper signatures and outcomes -/

/-- Signature of `addDNSEntry`, `updateDNSEntry` and `removeDNSEntry`:
`(ctx, domain, record) → (libdns.Record, error)` as a step on the state `σ`.
The error component is `none` for the nil error. -/
abbrev EntryHelper (κ σ ε : Type) := κ → GoString → Record → σ → (Record × Option ε) × σ

/-- Signature of `getDNSEntries`: `(ctx, domain) → ([]libdns.Record, error)`. -/
abbrev ListHelper (κ σ ε : Type) := κ → GoString → σ → (Slice × Option ε) × σ

/-- How a public operation ends: it returns `(records, err)`, or it panics.  Both carry
the state reached. -/
inductive Outcome (σ ε : Type) where
  | ret (records : Slice) (err : Option ε) (state : σ)
  | panic (state : σ)
deriving DecidableEq

/-- State in which the operation ended. -/
def Outcome.state {σ ε : Type} : Outcome σ ε → σ
  | .ret _ _ s => s
  | .panic s => s

/-- Change of state representation in an outcome. -/
def Outcome.mapState {σ τ ε : Type} (f : σ → τ) : Outcome σ ε → Outcome τ ε
  | .ret rs e s => .ret rs e (f s)
  | .panic s => .panic (f s)

/-! ## The public operations -/

section Operations

variable {κ σ ε : Type}

/-- Method `GetRecords`, lines 27-34. -/
def GetRecords (getDNSEntries : ListHelper κ σ ε) (ctx : κ) (zone : GoString) (s : σ) :
    Outcome σ ε :=
  match getDNSEntries ctx (unFQDN zone) s with
  | ((records, some err), s1) => .ret .nil (some err) s1
  | ((records, none), s1) => .ret records none s1

/-- Loop of `AppendRecords` (lines 40-52) over the remaining records, with the
accumulator `appendedRecords`. -/
def AppendRecords.loop (addDNSEntry : EntryHelper κ σ ε) (ctx : κ) (zone : GoString) :
    List Record → Slice → σ → Outcome σ ε
  | [], appendedRecords, s => .ret appendedRecords none s
  | record :: rest, appendedRecords, s =>
    match record.RR with
    | none => .panic s
    | some rr =>
      let rr : Transip.RR :=
        if rr.TTL < 300 * Second then { rr with TTL := 300 * Second } else rr
      match addDNSEntry ctx (unFQDN zone) record s with
      | ((newRecord, some err), s1) => .ret .nil (some err) s1
      | ((newRecord, none), s1) =>
        AppendRecords.loop addDNSEntry ctx zone rest (appendedRecords.append newRecord) s1

/-- Method `AppendRecords`, lines 37-55. -/
def AppendRecords (addDNSEntry : EntryHelper κ σ ε) (ctx : κ) (zone : GoString)
    (records : Slice) (s : σ) : Outcome σ ε :=
  AppendRecords.loop addDNSEntry ctx zone records.elems .nil s

/-- Loop of `DeleteRecords` (lines 61-70) with the accumulator `deletedRecords`. -/
def DeleteRecords.loop (removeDNSEntry : EntryHelper κ σ ε) (ctx : κ) (zone : GoString) :
    List Record → Slice → σ → Outcome σ ε
  | [], deletedRecords, s => .ret deletedRecords none s
  | record :: rest, deletedRecords, s =>
    match removeDNSEntry ctx (unFQDN zone) record s with
    | ((deletedRecord, err), s1) =>
      match deletedRecord.RR with
      | none => .panic s1
      | some deletedRR =>
        match err with
        | some e => .ret .nil (some e) s1
        | none =>
          let deletedRR : Transip.RR :=
            { deletedRR with TTL := mulDuration deletedRR.TTL Second }
          DeleteRecords.loop removeDNSEntry ctx zone rest
            (deletedRecords.append deletedRecord) s1

/-- Method `DeleteRecords`, lines 58-73. -/
def DeleteRecords (removeDNSEntry : EntryHelper κ σ ε) (ctx : κ) (zone : GoString)
    (records : Slice) (s : σ) : Outcome σ ε :=
  DeleteRecords.loop removeDNSEntry ctx zone records.elems .nil s

/-- Loop of `SetRecords` (lines 80-88) with the accumulator `setRecords`. -/
def SetRecords.loop (updateDNSEntry : EntryHelper κ σ ε) (ctx : κ) (zone : GoString) :
    List Record → Slice → σ → Outcome σ ε
  | [], setRecords, s => .ret setRecords none s
  | record :: rest, setRecords, s =>
    match updateDNSEntry ctx (unFQDN zone) record s with
    | ((setRecord, err), s1) =>
      match setRecord.RR with
      | none => .panic s1
      | some setRR =>
        match err with
        | some e => .ret .nil (some e) s1
        | none =>
          let setRR : Transip.RR := { setRR with TTL := mulDuration setRR.TTL Second }
          SetRecords.loop updateDNSEntry ctx zone rest (setRecords.append setRecord) s1

/-- Method `SetRecords`, lines 77-91. -/
def SetRecords (updateDNSEntry : EntryHelper κ σ ε) (ctx : κ) (zone : GoString)
    (records : Slice) (s : σ) : Outcome σ ε :=
  SetRecords.loop updateDNSEntry ctx zone records.elems .nil s

end Operations

/-! ## Vocabulary for the statements -/

section Vocabulary

variable {κ σ ε : Type}

/-- Instrumented entry helper: it behaves as `h` on the first component of the state and
appends the `(domain, record)` arguments of every invocation to a call log. -/
def traced (h : EntryHelper κ σ ε) : EntryHelper κ (σ × List (GoString × Record)) ε :=
  fun ctx domain record st =>
    ((h ctx domain record st.1).1, ((h ctx domain record st.1).2, st.2 ++ [(domain, record)]))

/-- Instrumented list helper: it behaves as `g` and appends the `domain` argument of every
invocation to a call log. -/
def tracedList (g : ListHelper κ σ ε) : ListHelper κ (σ × List GoString) ε :=
  fun ctx domain st =>
    ((g ctx domain st.1).1, ((g ctx domain st.1).2, st.2 ++ [domain]))

/-- Consecutive helper calls `step r₀, step r₁, …` threaded through the state: the list
of Go result pairs and the final state. -/
def runSteps (step : Record → σ → (Record × Option ε) × σ) :
    List Record → σ → List (Record × Option ε) × σ
  | [], s => ([], s)
  | r :: rs, s => ((step r s).1 :: (runSteps step rs (step r s).2).1,
      (runSteps step rs (step r s).2).2)

/-- Slice built by appending the elements of `xs` one at a time to the nil slice. -/
def Slice.ofAppends (xs : List Record) : Slice := xs.foldl Slice.append .nil

end Vocabulary

/-! ## The remote zone as the specification describes it

`updateDNSEntry` is a method of `Provider` that is defined outside `provider.go`.  For
the upsert property of `SetRecords` it is modelled from the specification's description
of the Remote Entry and of the per-record step of `SetRecords`. -/

/-- Modelled from the spec: the provider-native Remote Entry, "name, type, content, TTL
(in seconds, integer), no stable identifier"; its declaration (`transipdomain.DNSEntry`)
is not part of `provider.go`. -/
structure DNSEntry where
  Name : GoString
  Expire : Int
  Typ : GoString
  Content : GoString
deriving DecidableEq

/-- Modelled from the spec: the state of the remote provider, the entry list of every
zone ("a zone's record set, as seen through remote calls, is the single source of
truth"). -/
abbrev RemoteZones := GoString → List DNSEntry

/-- Modelled from the spec: conversion of a generic record to a Remote Entry, "TTL is
converted to seconds on submission" (whole seconds, truncated). -/
def toEntry (rr : RR) : DNSEntry :=
  { Name := rr.Name, Expire := Int.tdiv rr.TTL Second, Typ := rr.Typ, Content := rr.Data }

/-- Modelled from the spec: conversion of a Remote Entry back to a generic record, "TTL
seconds → duration". -/
def toRecord (e : DNSEntry) : Record :=
  .val { Name := e.Name, TTL := e.Expire * Second, Typ := e.Typ, Data := e.Content }

/-- Modelled from the spec: "identity is inferred by (name, type) equality within a
zone". -/
def sameNameType (name typ : GoString) (x : DNSEntry) : Bool :=
  x.Name == name && x.Typ == typ

/-- Modelled from the spec: "look up whether an entry with matching (name, type) already
exists in the zone; if present, replace its content/TTL (the remote entry list entry
matching name+type is replaced wholesale); if absent, create it", with the
"match-first-found" choice of the design notes. -/
def upsert (e : DNSEntry) : List DNSEntry → List DNSEntry
  | [] => [e]
  | x :: xs => if sameNameType e.Name e.Typ x then e :: xs else x :: upsert e xs

/-- Modelled from the spec: the method `updateDNSEntry` (absent from `provider.go`), the
per-record step of `SetRecords` against a remote provider that answers every call:
the entry list of `domain` is upserted with the record's entry and the record is
returned converted back from the submitted entry.  For the nil interface value (not a
record) nothing is submitted and nil is handed back, on which `SetRecords` panics. -/
def updateDNSEntry (κ ε : Type) : EntryHelper κ RemoteZones ε :=
  fun _ctx domain record s =>
    match record with
    | .nil => ((.nil, none), s)
    | .val rr =>
      ((toRecord (toEntry rr), none),
        fun d => if d = domain then upsert (toEntry rr) (s d) else s d)

/-! ## Concrete remote clients and records for the examples -/

/-- An `A` record with the given name, TTL in seconds and address. -/
def aRecord (name : String) (ttlSeconds : Int) (data : String) : Record :=
  .val { Name := ascii name, TTL := ttlSeconds * Second, Typ := ascii "A", Data := ascii data }

/-- A create (or update) step over the list of records stored so far: a record named
`bad` is rejected, the Go result pair being `(nil, err)` with the error `1`; any other
record is stored and echoed. -/
def demoAdd : EntryHelper Unit (List Record) Nat :=
  fun _ _ record s =>
    match record with
    | .nil => ((.nil, some 2), s)
    | .val rr =>
      if rr.Name = ascii "bad" then ((.nil, some 1), s) else ((record, none), s ++ [record])

/-- A removal step over the list of records present remotely: a record that is present
is removed and echoed; for a record matching no entry the state is left unchanged and the
Go result pair is `(nil, err)` with the not-found error `404`. -/
def demoRemove : EntryHelper Unit (List Record) Nat :=
  fun _ _ record s =>
    if record ∈ s then ((record, none), s.erase record) else ((.nil, some 404), s)

/-- The record `(name = "www", type = "A")` with the given TTL and content. -/
def wwwA (ttl : Duration) (content : GoString) : RR :=
  { Name := ascii "www", TTL := ttl, Typ := ascii "A", Data := content }

/-- An update or removal step that succeeds without echoing the record: the Go result
pair is `(nil, nil)`, the nil interface value with the nil error, and the state is left
as it is. -/
def demoAck : EntryHelper Unit (List Record) Nat :=
  fun _ _ _ s => ((.nil, none), s)

/-- A fetch step over the list of records present remotely: zone `example.com` is
listed, any other zone is rejected with error `404`. -/
def demoGet : ListHelper Unit (List Record) Nat :=
  fun _ domain s =>
    if domain = ascii "example.com" then ((.mk s, none), s) else ((.nil, some 404), s)

/-! ## Zone-name normalisation -/

theorem ascii_dot : ascii "." = [46] := rfl

theorem unFQDN_append_dot (s : GoString) : unFQDN (s ++ ascii ".") = s := by
  simp [unFQDN, TrimSuffix, HasSuffix, ascii_dot]

theorem hasSuffix_dot_iff (s : GoString) :
    HasSuffix s (ascii ".") = true ↔ ∃ t, s = t ++ ascii "." := by
  constructor
  · intro h
    refine ⟨s.take (s.length - 1), ?_⟩
    simp only [HasSuffix, ascii_dot, Bool.and_eq_true, decide_eq_true_eq, beq_iff_eq,
      List.length_singleton] at h
    rw [ascii_dot, ← h.2, List.take_append_drop]
  · rintro ⟨t, rfl⟩
    simp [HasSuffix, ascii_dot]

theorem unFQDN_of_no_dot (s : GoString) (h : ∀ t, s ≠ t ++ ascii ".") : unFQDN s = s := by
  have hs : HasSuffix s (ascii ".") = false := by
    cases hh : HasSuffix s (ascii ".") with
    | false => rfl
    | true =>
      obtain ⟨t, ht⟩ := (hasSuffix_dot_iff s).1 hh
      exact absurd ht (h t)
  simp [unFQDN, TrimSuffix, hs]

/-- C2: `unFQDN` strips exactly one trailing dot: `unFQDN (s ++ ".") = s` for every
string `s` (so `"example.com."` gives `"example.com"` and `"example.com.."` gives
`"example.com."`), and a string that does not end in `"."` is returned unchanged. -/
theorem unFQDN_strips_exactly_one_dot (s : GoString) :
    unFQDN (s ++ ascii ".") = s
    ∧ ((∀ t, s ≠ t ++ ascii ".") → unFQDN s = s)
    ∧ unFQDN (ascii "example.com.") = ascii "example.com"
    ∧ unFQDN (ascii "example.com..") = ascii "example.com." :=
  ⟨unFQDN_append_dot s, unFQDN_of_no_dot s, by decide, by decide⟩

theorem ascii_example_no_dot : ∀ t, ascii "example.com" ≠ t ++ ascii "." := by
  intro t ht
  have h := (hasSuffix_dot_iff (ascii "example.com")).2 ⟨t, ht⟩
  revert h
  decide

theorem unFQDN_strips_exactly_one_dot_witness :
    unFQDN (ascii "example.com" ++ ascii ".") = ascii "example.com"
    ∧ unFQDN (ascii "example.com") = ascii "example.com" :=
  ⟨(unFQDN_strips_exactly_one_dot (ascii "example.com")).1,
   (unFQDN_strips_exactly_one_dot (ascii "example.com")).2.1 ascii_example_no_dot⟩

/-- C3 (as stated, refuted): on `"example.com.."` a second normalisation strips a second
dot, so `unFQDN (unFQDN z)` differs from `unFQDN z`. -/
theorem unFQDN_not_idempotent :
    unFQDN (unFQDN (ascii "example.com..")) ≠ unFQDN (ascii "example.com..") := by
  decide

/-- C3 (amended): `unFQDN (unFQDN z) = unFQDN z` holds exactly for the zone strings `z`
that do not end in two dots; in particular for every `z` with at most one trailing dot. -/
theorem unFQDN_idempotent_iff (z : GoString) :
    unFQDN (unFQDN z) = unFQDN z ↔ ¬ ∃ t, z = t ++ ascii ".." := by
  by_cases hz : ∃ u, z = u ++ ascii "."
  · obtain ⟨u, rfl⟩ := hz
    rw [unFQDN_append_dot]
    constructor
    · rintro h ⟨t, ht⟩
      have ht2 : u ++ ascii "." = (t ++ ascii ".") ++ ascii "." := by
        rw [ht]; simp [ascii]
      have hu : u = t ++ ascii "." := List.append_cancel_right ht2
      rw [hu, unFQDN_append_dot] at h
      have := congrArg List.length h
      simp [ascii] at this
    · intro h
      apply unFQDN_of_no_dot
      intro t ht
      apply h
      refine ⟨t, ?_⟩
      rw [ht]; simp [ascii]
  · have h1 : unFQDN z = z := unFQDN_of_no_dot z (fun t ht => hz ⟨t, ht⟩)
    rw [h1, h1]
    simp only [true_iff]
    rintro ⟨t, ht⟩
    apply hz
    refine ⟨t ++ ascii ".", ?_⟩
    rw [ht]; simp [ascii]

/-! ## The loops in terms of consecutive helper calls -/

section Loops

variable {κ σ ε : Type}

theorem runSteps_traced (h : EntryHelper κ σ ε) (ctx : κ) (d : GoString)
    (rs : List Record) (s : σ) (l : List (GoString × Record)) :
    runSteps (traced h ctx d) rs (s, l)
      = ((runSteps (h ctx d) rs s).1,
          ((runSteps (h ctx d) rs s).2, l ++ rs.map (fun r => (d, r)))) := by
  induction rs generalizing s l with
  | nil => simp [runSteps]
  | cons r rs ih => simp [runSteps, traced, ih]

theorem runSteps_length (step : Record → σ → (Record × Option ε) × σ)
    (rs : List Record) (s : σ) : (runSteps step rs s).1.length = rs.length := by
  induction rs generalizing s with
  | nil => simp [runSteps]
  | cons r rs ih => simp [runSteps, ih]

theorem ofAppends_foldl (acc : Slice) (xs : List Record) (hx : xs ≠ []) :
    xs.foldl Slice.append acc = .mk (acc.elems ++ xs) := by
  induction xs generalizing acc with
  | nil => exact absurd rfl hx
  | cons x xs ih =>
    cases xs with
    | nil => simp [Slice.append]
    | cons y ys =>
      rw [List.foldl_cons, ih _ (by simp)]
      simp [Slice.append, Slice.elems]

theorem ofAppends_elems (xs : List Record) : (Slice.ofAppends xs).elems = xs := by
  cases xs with
  | nil => rfl
  | cons x xs =>
    unfold Slice.ofAppends
    rw [ofAppends_foldl _ _ (List.cons_ne_nil x xs)]
    simp [Slice.elems]

/-- One iteration of the `AppendRecords` loop on a non-nil record. -/
theorem appendLoop_cons (h : EntryHelper κ σ ε) (ctx : κ) (z : GoString)
    (rr : RR) (rest : List Record) (acc : Slice) (s : σ) :
    AppendRecords.loop h ctx z (.val rr :: rest) acc s
      = match (h ctx (unFQDN z) (.val rr) s).1.2 with
        | some err => .ret .nil (some err) (h ctx (unFQDN z) (.val rr) s).2
        | none => AppendRecords.loop h ctx z rest
            (acc.append (h ctx (unFQDN z) (.val rr) s).1.1) (h ctx (unFQDN z) (.val rr) s).2 := by
  rcases hstep : h ctx (unFQDN z) (.val rr) s with ⟨⟨nr, err⟩, s1⟩
  cases err <;> simp [AppendRecords.loop, Record.RR, hstep]

/-- One iteration of the `DeleteRecords` loop. -/
theorem deleteLoop_cons (h : EntryHelper κ σ ε) (ctx : κ) (z : GoString)
    (r : Record) (rest : List Record) (acc : Slice) (s : σ) :
    DeleteRecords.loop h ctx z (r :: rest) acc s
      = match (h ctx (unFQDN z) r s).1.1, (h ctx (unFQDN z) r s).1.2 with
        | .nil, _ => .panic (h ctx (unFQDN z) r s).2
        | .val _, some err => .ret .nil (some err) (h ctx (unFQDN z) r s).2
        | .val rr, none => DeleteRecords.loop h ctx z rest
            (acc.append (.val rr)) (h ctx (unFQDN z) r s).2 := by
  rcases hstep : h ctx (unFQDN z) r s with ⟨⟨nr, err⟩, s1⟩
  cases nr <;> cases err <;> simp [DeleteRecords.loop, Record.RR, hstep]

/-- The loops of `SetRecords` and `DeleteRecords` are the same function of their
helper. -/
theorem setLoop_eq_deleteLoop (h : EntryHelper κ σ ε) (ctx : κ) (z : GoString)
    (rs : List Record) (acc : Slice) (s : σ) :
    SetRecords.loop h ctx z rs acc s = DeleteRecords.loop h ctx z rs acc s := by
  induction rs generalizing acc s with
  | nil => simp [SetRecords.loop, DeleteRecords.loop]
  | cons r rs ih =>
    rcases hstep : h ctx (unFQDN z) r s with ⟨⟨nr, err⟩, s1⟩
    cases nr <;> cases err <;>
      simp [SetRecords.loop, DeleteRecords.loop, Record.RR, hstep, ih]

/-- When every input is a record and every create call succeeds, the loop of
`AppendRecords` returns the accumulator extended by the helper's records, no error, and
the state left by the calls. -/
theorem appendLoop_success (h : EntryHelper κ σ ε) (ctx : κ) (z : GoString)
    (rs : List Record) (acc : Slice) (s : σ)
    (hin : ∀ r ∈ rs, r ≠ Record.nil)
    (hok : ∀ o ∈ (runSteps (h ctx (unFQDN z)) rs s).1, o.2 = none) :
    AppendRecords.loop h ctx z rs acc s
      = .ret (((runSteps (h ctx (unFQDN z)) rs s).1.map Prod.fst).foldl Slice.append acc)
          none (runSteps (h ctx (unFQDN z)) rs s).2 := by
  induction rs generalizing acc s with
  | nil => simp [AppendRecords.loop, runSteps]
  | cons r rs ih =>
    cases r with
    | nil => exact absurd rfl (hin Record.nil (by simp))
    | val rr =>
      have h0 : (h ctx (unFQDN z) (.val rr) s).1.2 = none :=
        hok _ (by simp [runSteps])
      rw [appendLoop_cons, h0]
      simp only [runSteps, List.map_cons, List.foldl_cons]
      apply ih
      · intro r hr
        exact hin r (List.mem_cons_of_mem _ hr)
      · intro o ho
        exact hok o (by simp [runSteps, ho])

/-- When the create call for the record of index `i` is the first to fail, the loop of
`AppendRecords` returns its error with the nil slice in the state left by the calls for
the records `0..i`. -/
theorem appendLoop_failFast (h : EntryHelper κ σ ε) (ctx : κ) (z : GoString)
    (i : Nat) (rs : List Record) (acc : Slice) (s : σ) (e : ε)
    (hin : ∀ r ∈ rs.take (i + 1), r ≠ Record.nil)
    (hi : i < rs.length)
    (herr : (runSteps (h ctx (unFQDN z)) (rs.take (i + 1)) s).1.map Prod.snd
      = List.replicate i none ++ [some e]) :
    AppendRecords.loop h ctx z rs acc s
      = .ret .nil (some e) (runSteps (h ctx (unFQDN z)) (rs.take (i + 1)) s).2 := by
  induction i generalizing rs acc s with
  | zero =>
    cases rs with
    | nil => simp at hi
    | cons r rs =>
      cases r with
      | nil => exact absurd rfl (hin Record.nil (by simp))
      | val rr =>
        have h0 : (h ctx (unFQDN z) (.val rr) s).1.2 = some e := by
          simpa [runSteps] using herr
        rw [appendLoop_cons, h0]
        simp [runSteps]
  | succ i ih =>
    cases rs with
    | nil => simp at hi
    | cons r rs =>
      cases r with
      | nil => exact absurd rfl (hin Record.nil (by simp))
      | val rr =>
        simp only [List.take_succ_cons, runSteps, List.map_cons, List.replicate_succ,
          List.cons_append, List.cons.injEq] at herr
        rw [appendLoop_cons, herr.1]
        simp only [List.take_succ_cons, runSteps]
        apply ih
        · intro r hr
          exact hin r (by simp [List.take_succ_cons, hr])
        · simpa using hi
        · exact herr.2

/-- When every removal call succeeds and returns a record, the loop of `DeleteRecords`
returns the accumulator extended by the helper's records, no error, and the state left
by the calls. -/
theorem deleteLoop_success (h : EntryHelper κ σ ε) (ctx : κ) (z : GoString)
    (rs : List Record) (acc : Slice) (s : σ)
    (hok : ∀ o ∈ (runSteps (h ctx (unFQDN z)) rs s).1, o.1 ≠ Record.nil ∧ o.2 = none) :
    DeleteRecords.loop h ctx z rs acc s
      = .ret (((runSteps (h ctx (unFQDN z)) rs s).1.map Prod.fst).foldl Slice.append acc)
          none (runSteps (h ctx (unFQDN z)) rs s).2 := by
  induction rs generalizing acc s with
  | nil => simp [DeleteRecords.loop, runSteps]
  | cons r rs ih =>
    have h0 := hok (h ctx (unFQDN z) r s).1 (by simp [runSteps])
    rw [deleteLoop_cons]
    rcases hstep : h ctx (unFQDN z) r s with ⟨⟨nr, err⟩, s1⟩
    rw [hstep] at h0
    cases nr with
    | nil => exact absurd rfl h0.1
    | val rr =>
      simp only at h0
      simp only [h0.2, runSteps, hstep, List.map_cons, List.foldl_cons]
      apply ih
      intro o ho
      exact hok o (by simp [runSteps, hstep, ho])

/-- When the removal call for the record of index `i` is the first to fail and the calls
for the records `0..i` all hand back a record (a non-nil interface value), the loop of
`DeleteRecords` returns the error with the nil slice in the state left by those calls. -/
theorem deleteLoop_failFast (h : EntryHelper κ σ ε) (ctx : κ) (z : GoString)
    (i : Nat) (rs : List Record) (acc : Slice) (s : σ) (e : ε)
    (hi : i < rs.length)
    (hval : ∀ o ∈ (runSteps (h ctx (unFQDN z)) (rs.take (i + 1)) s).1, o.1 ≠ Record.nil)
    (herr : (runSteps (h ctx (unFQDN z)) (rs.take (i + 1)) s).1.map Prod.snd
      = List.replicate i none ++ [some e]) :
    DeleteRecords.loop h ctx z rs acc s
      = .ret .nil (some e) (runSteps (h ctx (unFQDN z)) (rs.take (i + 1)) s).2 := by
  induction i generalizing rs acc s with
  | zero =>
    cases rs with
    | nil => simp at hi
    | cons r rs =>
      have h0 := hval (h ctx (unFQDN z) r s).1 (by simp [runSteps])
      rw [deleteLoop_cons]
      rcases hstep : h ctx (unFQDN z) r s with ⟨⟨nr, err⟩, s1⟩
      rw [hstep] at h0
      have h1 : err = some e := by simpa [runSteps, hstep] using herr
      cases nr with
      | nil => exact absurd rfl h0
      | val rr => simp [h1, runSteps, hstep]
  | succ i ih =>
    cases rs with
    | nil => simp at hi
    | cons r rs =>
      have h0 := hval (h ctx (unFQDN z) r s).1 (by simp [runSteps])
      rw [deleteLoop_cons]
      rcases hstep : h ctx (unFQDN z) r s with ⟨⟨nr, err⟩, s1⟩
      rw [hstep] at h0
      simp only [List.take_succ_cons, runSteps, hstep, List.map_cons, List.replicate_succ,
        List.cons_append, List.cons.injEq] at herr
      cases nr with
      | nil => exact absurd rfl h0
      | val rr =>
        simp only [herr.1, List.take_succ_cons, runSteps, hstep]
        apply ih
        · simpa using hi
        · intro o ho
          exact hval o (by simp [List.take_succ_cons, runSteps, hstep, ho])
        · exact herr.2

/-- When a removal call hands back the nil interface value, whatever error comes with
it, the loop of `DeleteRecords` panics on `deletedRecord.RR()` (line 63). -/
theorem deleteLoop_nil_panics (h : EntryHelper κ σ ε) (ctx : κ) (z : GoString)
    (r : Record) (rest : List Record) (acc : Slice) (s : σ)
    (hnil : (h ctx (unFQDN z) r s).1.1 = Record.nil) :
    DeleteRecords.loop h ctx z (r :: rest) acc s = .panic (h ctx (unFQDN z) r s).2 := by
  rw [deleteLoop_cons, hnil]

/-! ### The instrumented run projects onto the plain run -/

theorem appendLoop_traced_fst (h : EntryHelper κ σ ε) (ctx : κ) (z : GoString)
    (rs : List Record) (acc : Slice) (s : σ) (l : List (GoString × Record)) :
    (AppendRecords.loop (traced h) ctx z rs acc (s, l)).mapState Prod.fst
      = AppendRecords.loop h ctx z rs acc s := by
  induction rs generalizing acc s l with
  | nil => simp [AppendRecords.loop, Outcome.mapState]
  | cons r rs ih =>
    cases r with
    | nil => simp [AppendRecords.loop, Record.RR, Outcome.mapState]
    | val rr =>
      rw [appendLoop_cons, appendLoop_cons]
      rcases hstep : h ctx (unFQDN z) (.val rr) s with ⟨⟨nr, err⟩, s1⟩
      cases err with
      | some e => simp [traced, hstep, Outcome.mapState]
      | none =>
        simp only [traced, hstep]
        exact ih _ _ _

theorem deleteLoop_traced_fst (h : EntryHelper κ σ ε) (ctx : κ) (z : GoString)
    (rs : List Record) (acc : Slice) (s : σ) (l : List (GoString × Record)) :
    (DeleteRecords.loop (traced h) ctx z rs acc (s, l)).mapState Prod.fst
      = DeleteRecords.loop h ctx z rs acc s := by
  induction rs generalizing acc s l with
  | nil => simp [DeleteRecords.loop, Outcome.mapState]
  | cons r rs ih =>
    rw [deleteLoop_cons, deleteLoop_cons]
    rcases hstep : h ctx (unFQDN z) r s with ⟨⟨nr, err⟩, s1⟩
    cases nr with
    | nil => simp [traced, hstep, Outcome.mapState]
    | val rr =>
      cases err with
      | some e => simp [traced, hstep, Outcome.mapState]
      | none =>
        simp only [traced, hstep]
        exact ih _ _ _

/-! ### Every logged call carries the normalised zone -/

theorem appendLoop_log_domain (h : EntryHelper κ σ ε) (ctx : κ) (z : GoString)
    (rs : List Record) (acc : Slice) (s : σ) (l : List (GoString × Record))
    (hl : ∀ c ∈ l, c.1 = unFQDN z) :
    ∀ c ∈ (AppendRecords.loop (traced h) ctx z rs acc (s, l)).state.2, c.1 = unFQDN z := by
  induction rs generalizing acc s l with
  | nil => simpa [AppendRecords.loop, Outcome.state] using hl
  | cons r rs ih =>
    cases r with
    | nil => simpa [AppendRecords.loop, Record.RR, Outcome.state] using hl
    | val rr =>
      have hl2 : ∀ c ∈ l ++ [(unFQDN z, Record.val rr)], c.1 = unFQDN z := by
        intro c hc
        rcases List.mem_append.1 hc with hc | hc
        · exact hl c hc
        · simp at hc; rw [hc]
      rw [appendLoop_cons]
      rcases hstep : h ctx (unFQDN z) (.val rr) s with ⟨⟨nr, err⟩, s1⟩
      cases err with
      | some e => simpa [traced, hstep, Outcome.state] using hl2
      | none =>
        simp only [traced, hstep]
        exact ih _ _ _ hl2

theorem deleteLoop_log_domain (h : EntryHelper κ σ ε) (ctx : κ) (z : GoString)
    (rs : List Record) (acc : Slice) (s : σ) (l : List (GoString × Record))
    (hl : ∀ c ∈ l, c.1 = unFQDN z) :
    ∀ c ∈ (DeleteRecords.loop (traced h) ctx z rs acc (s, l)).state.2, c.1 = unFQDN z := by
  induction rs generalizing acc s l with
  | nil => simpa [DeleteRecords.loop, Outcome.state] using hl
  | cons r rs ih =>
    have hl2 : ∀ c ∈ l ++ [(unFQDN z, r)], c.1 = unFQDN z := by
      intro c hc
      rcases List.mem_append.1 hc with hc | hc
      · exact hl c hc
      · simp at hc; rw [hc]
    rw [deleteLoop_cons]
    rcases hstep : h ctx (unFQDN z) r s with ⟨⟨nr, err⟩, s1⟩
    cases nr with
    | nil => simpa [traced, hstep, Outcome.state] using hl2
    | val rr =>
      cases err with
      | some e => simpa [traced, hstep, Outcome.state] using hl2
      | none =>
        simp only [traced, hstep]
        exact ih _ _ _ hl2

/-! ### The loops depend on the zone only through its normal form -/

theorem appendLoop_congr_zone (h : EntryHelper κ σ ε) (ctx : κ) (z1 z2 : GoString)
    (hz : unFQDN z1 = unFQDN z2) (rs : List Record) (acc : Slice) (s : σ) :
    AppendRecords.loop h ctx z1 rs acc s = AppendRecords.loop h ctx z2 rs acc s := by
  induction rs generalizing acc s with
  | nil => simp [AppendRecords.loop]
  | cons r rs ih =>
    cases r with
    | nil => simp [AppendRecords.loop, Record.RR]
    | val rr =>
      rw [appendLoop_cons, appendLoop_cons, hz]
      rcases hstep : h ctx (unFQDN z2) (.val rr) s with ⟨⟨nr, err⟩, s1⟩
      cases err <;> simp [ih]

theorem deleteLoop_congr_zone (h : EntryHelper κ σ ε) (ctx : κ) (z1 z2 : GoString)
    (hz : unFQDN z1 = unFQDN z2) (rs : List Record) (acc : Slice) (s : σ) :
    DeleteRecords.loop h ctx z1 rs acc s = DeleteRecords.loop h ctx z2 rs acc s := by
  induction rs generalizing acc s with
  | nil => simp [DeleteRecords.loop]
  | cons r rs ih =>
    rw [deleteLoop_cons, deleteLoop_cons, hz]
    rcases hstep : h ctx (unFQDN z2) r s with ⟨⟨nr, err⟩, s1⟩
    cases nr <;> cases err <;> simp [ih]

end Loops

/-! ## The public operations: supporting facts -/

section Support

variable {κ σ ε : Type}

/-- The instrumented run of `AppendRecords` is the plain run with a call log added. -/
theorem AppendRecords_traced_fst (h : EntryHelper κ σ ε) (ctx : κ) (z : GoString)
    (records : Slice) (s : σ) :
    (AppendRecords (traced h) ctx z records (s, [])).mapState Prod.fst
      = AppendRecords h ctx z records s :=
  appendLoop_traced_fst h ctx z records.elems .nil s []

/-- The instrumented run of `DeleteRecords` is the plain run with a call log added. -/
theorem DeleteRecords_traced_fst (h : EntryHelper κ σ ε) (ctx : κ) (z : GoString)
    (records : Slice) (s : σ) :
    (DeleteRecords (traced h) ctx z records (s, [])).mapState Prod.fst
      = DeleteRecords h ctx z records s :=
  deleteLoop_traced_fst h ctx z records.elems .nil s []

/-- `SetRecords` and `DeleteRecords` are the same function of their helper. -/
theorem SetRecords_eq_DeleteRecords (h : EntryHelper κ σ ε) (ctx : κ) (z : GoString)
    (records : Slice) (s : σ) :
    SetRecords h ctx z records s = DeleteRecords h ctx z records s :=
  setLoop_eq_deleteLoop h ctx z records.elems .nil s

/-- The instrumented run of `SetRecords` is the plain run with a call log added. -/
theorem SetRecords_traced_fst (h : EntryHelper κ σ ε) (ctx : κ) (z : GoString)
    (records : Slice) (s : σ) :
    (SetRecords (traced h) ctx z records (s, [])).mapState Prod.fst
      = SetRecords h ctx z records s := by
  rw [SetRecords_eq_DeleteRecords, SetRecords_eq_DeleteRecords, DeleteRecords_traced_fst]

/-- The instrumented run of `GetRecords` is the plain run with a call log added. -/
theorem GetRecords_traced_fst (g : ListHelper κ σ ε) (ctx : κ) (z : GoString) (s : σ) :
    (GetRecords (tracedList g) ctx z (s, [])).mapState Prod.fst = GetRecords g ctx z s := by
  rcases hstep : g ctx (unFQDN z) s with ⟨⟨rs, err⟩, s1⟩
  cases err <;> simp [GetRecords, tracedList, hstep, Outcome.mapState]

/-- `AppendRecords` hands every record to `addDNSEntry` exactly as it received it: the
clamped copy `rr` of lines 41-44 is never passed on. -/
theorem AppendRecords_hands_record_unchanged (h : EntryHelper κ σ ε) (ctx : κ)
    (z : GoString) (rr : RR) (s : σ) :
    (AppendRecords (traced h) ctx z (.mk [.val rr]) (s, [])).state.2
      = [(unFQDN z, Record.val rr)] := by
  unfold AppendRecords
  simp only [Slice.elems]
  rw [appendLoop_cons]
  rcases hstep : h ctx (unFQDN z) (.val rr) s with ⟨⟨nr, err⟩, s1⟩
  cases err <;> simp [traced, hstep, Outcome.state, AppendRecords.loop]

/-- Fail-fast for `AppendRecords`: when the create call of index `i` is the first to
fail, the error is returned with the nil slice, the helper has been invoked once for
each of the records `0..i` in order and for no other, and the state is the one left by
those calls. -/
theorem AppendRecords_failFast (h : EntryHelper κ σ ε) (ctx : κ) (z : GoString)
    (i : Nat) (rs : List Record) (s : σ) (e : ε)
    (hin : ∀ r ∈ rs.take (i + 1), r ≠ Record.nil)
    (hi : i < rs.length)
    (herr : (runSteps (h ctx (unFQDN z)) (rs.take (i + 1)) s).1.map Prod.snd
      = List.replicate i none ++ [some e]) :
    AppendRecords (traced h) ctx z (.mk rs) (s, [])
      = .ret .nil (some e) ((runSteps (h ctx (unFQDN z)) (rs.take (i + 1)) s).2,
          (rs.take (i + 1)).map (fun r => (unFQDN z, r))) := by
  unfold AppendRecords
  simp only [Slice.elems]
  rw [appendLoop_failFast (traced h) ctx z i rs .nil (s, []) e hin hi
    (by rw [runSteps_traced]; exact herr)]
  rw [runSteps_traced]
  simp

/-- Fail-fast for `DeleteRecords`, provided the removal calls for the records `0..i` hand
back records (non-nil interface values): the error of the first failing call is returned
with the nil slice, the helper has been invoked once for each of the records `0..i` in
order and for no other, and the state is the one left by those calls. -/
theorem DeleteRecords_failFast (h : EntryHelper κ σ ε) (ctx : κ) (z : GoString)
    (i : Nat) (rs : List Record) (s : σ) (e : ε)
    (hi : i < rs.length)
    (hval : ∀ o ∈ (runSteps (h ctx (unFQDN z)) (rs.take (i + 1)) s).1, o.1 ≠ Record.nil)
    (herr : (runSteps (h ctx (unFQDN z)) (rs.take (i + 1)) s).1.map Prod.snd
      = List.replicate i none ++ [some e]) :
    DeleteRecords (traced h) ctx z (.mk rs) (s, [])
      = .ret .nil (some e) ((runSteps (h ctx (unFQDN z)) (rs.take (i + 1)) s).2,
          (rs.take (i + 1)).map (fun r => (unFQDN z, r))) := by
  unfold DeleteRecords
  simp only [Slice.elems]
  rw [deleteLoop_failFast (traced h) ctx z i rs .nil (s, []) e hi
    (by rw [runSteps_traced]; exact hval) (by rw [runSteps_traced]; exact herr)]
  rw [runSteps_traced]
  simp

/-- Fail-fast for `SetRecords`, under the same proviso as for `DeleteRecords`. -/
theorem SetRecords_failFast (h : EntryHelper κ σ ε) (ctx : κ) (z : GoString)
    (i : Nat) (rs : List Record) (s : σ) (e : ε)
    (hi : i < rs.length)
    (hval : ∀ o ∈ (runSteps (h ctx (unFQDN z)) (rs.take (i + 1)) s).1, o.1 ≠ Record.nil)
    (herr : (runSteps (h ctx (unFQDN z)) (rs.take (i + 1)) s).1.map Prod.snd
      = List.replicate i none ++ [some e]) :
    SetRecords (traced h) ctx z (.mk rs) (s, [])
      = .ret .nil (some e) ((runSteps (h ctx (unFQDN z)) (rs.take (i + 1)) s).2,
          (rs.take (i + 1)).map (fun r => (unFQDN z, r))) := by
  rw [SetRecords_eq_DeleteRecords]
  exact DeleteRecords_failFast h ctx z i rs s e hi hval herr

/-- A failing removal that hands back a record (a non-nil interface value) and leaves the
state unchanged: `DeleteRecords` returns the error with the nil slice, state unchanged. -/
theorem DeleteRecords_unmatched_with_record (h : EntryHelper κ σ ε) (ctx : κ)
    (z : GoString) (r : Record) (rr : RR) (e : ε) (s : σ)
    (hh : h ctx (unFQDN z) r s = ((Record.val rr, some e), s)) :
    DeleteRecords h ctx z (.mk [r]) s = .ret .nil (some e) s := by
  unfold DeleteRecords
  simp only [Slice.elems]
  rw [deleteLoop_cons, hh]

/-- A failing removal that hands back the nil interface value and leaves the state
unchanged: `DeleteRecords` panics, whatever the error is, in the unchanged state. -/
theorem DeleteRecords_unmatched_with_nil (h : EntryHelper κ σ ε) (ctx : κ)
    (z : GoString) (r : Record) (e : ε) (s : σ)
    (hh : h ctx (unFQDN z) r s = ((Record.nil, some e), s)) :
    DeleteRecords h ctx z (.mk [r]) s = .panic s := by
  unfold DeleteRecords
  simp only [Slice.elems]
  rw [deleteLoop_cons, hh]

theorem runSteps_getElem (step : Record → σ → (Record × Option ε) × σ)
    (rs : List Record) (s : σ) (k : Nat) (hk : k < rs.length) :
    (runSteps step rs s).1[k]?
      = some (step (rs.get ⟨k, hk⟩) (runSteps step (rs.take k) s).2).1 := by
  induction rs generalizing k s with
  | nil => simp at hk
  | cons r rs ih =>
    cases k with
    | zero => simp [runSteps]
    | succ k =>
      have hk2 : k < rs.length := by simpa using hk
      simpa [runSteps] using ih (step r s).2 k hk2

end Support

/-! ## Claims about the public operations -/

section Claims

variable {κ σ ε : Type}

/-- C1 (the code at the failing input): `AppendRecords` on zone `example.com.` with one
record of TTL 60s invokes `addDNSEntry` once, on the normalised zone, with the record as
it was given: the submitted TTL is 60s, not 300s.  The clamp of lines 42-44 changes only
the local copy `rr`, and line 46 passes `record`. -/
theorem AppendRecords_submits_ttl_below_minimum :
    (AppendRecords (traced demoAdd) () (ascii "example.com.")
        (.mk [aRecord "www" 60 "192.0.2.1"]) ([], [])).state.2
      = [(ascii "example.com",
          Record.val { Name := ascii "www", TTL := 60 * Second, Typ := ascii "A",
                       Data := ascii "192.0.2.1" })]
    ∧ (60 * Second : Duration) < 300 * Second := by
  decide

/-- C4 (the code at the failing input): with three records of which the second matches no
remote entry, so that `removeDNSEntry` answers `(nil, err)`, `DeleteRecords` panics on
`deletedRecord.RR()` (line 63) instead of returning the error; the first record has been
removed and the third is never attempted.  `SetRecords` panics likewise on
`setRecord.RR()` (line 82) when `updateDNSEntry` rejects the second record with
`(nil, err)`.  `AppendRecords`, which tests `err` before anything else, returns on the
same helper the error of the second record with the nil slice, the first record being
created and the third never attempted. -/
theorem batch_failure_with_nil_record :
    DeleteRecords (traced demoRemove) () (ascii "example.com.")
        (.mk [aRecord "www" 300 "192.0.2.1", aRecord "mail" 300 "192.0.2.2",
              aRecord "ftp" 300 "192.0.2.3"])
        ([aRecord "www" 300 "192.0.2.1", aRecord "ftp" 300 "192.0.2.3"], [])
      = .panic ([aRecord "ftp" 300 "192.0.2.3"],
          [(ascii "example.com", aRecord "www" 300 "192.0.2.1"),
           (ascii "example.com", aRecord "mail" 300 "192.0.2.2")])
    ∧ SetRecords (traced demoAdd) () (ascii "example.com.")
        (.mk [aRecord "www" 300 "192.0.2.1", aRecord "bad" 300 "192.0.2.2",
              aRecord "ftp" 300 "192.0.2.3"]) ([], [])
      = .panic ([aRecord "www" 300 "192.0.2.1"],
          [(ascii "example.com", aRecord "www" 300 "192.0.2.1"),
           (ascii "example.com", aRecord "bad" 300 "192.0.2.2")])
    ∧ AppendRecords (traced demoAdd) () (ascii "example.com.")
        (.mk [aRecord "www" 300 "192.0.2.1", aRecord "bad" 300 "192.0.2.2",
              aRecord "ftp" 300 "192.0.2.3"]) ([], [])
      = .ret .nil (some 1) ([aRecord "www" 300 "192.0.2.1"],
          [(ascii "example.com", aRecord "www" 300 "192.0.2.1"),
           (ascii "example.com", aRecord "bad" 300 "192.0.2.2")]) := by
  refine ⟨?_, ?_, ?_⟩ <;> decide

/-- C5 (the code at the failing input): `DeleteRecords` on a record matching no remote
entry, where `removeDNSEntry` leaves the state unchanged and answers `(nil, err)`: the
call `deletedRecord.RR()` of line 63 precedes the test of `err`, so the operation panics
and returns neither the error nor a record list; the remote state is unchanged. -/
theorem DeleteRecords_panics_on_unmatched_record :
    demoRemove () (ascii "example.com") (aRecord "www" 300 "192.0.2.1")
        [aRecord "mail" 300 "192.0.2.2"]
      = ((Record.nil, some 404), [aRecord "mail" 300 "192.0.2.2"])
    ∧ DeleteRecords demoRemove () (ascii "example.com.")
        (.mk [aRecord "www" 300 "192.0.2.1"]) [aRecord "mail" 300 "192.0.2.2"]
      = .panic [aRecord "mail" 300 "192.0.2.2"] := by
  decide

/-- C7: `GetRecords` calls `getDNSEntries` on the normalised zone; when the fetch succeeds
with the list `L` it returns exactly `L` and no error, and when the fetch fails with the
error `e` it returns `e` with the nil slice. -/
theorem GetRecords_returns_fetched_or_error (g : ListHelper κ σ ε) (ctx : κ)
    (z : GoString) (s : σ) :
    (∀ L s1, g ctx (unFQDN z) s = ((L, none), s1) → GetRecords g ctx z s = .ret L none s1)
    ∧ (∀ L e s1, g ctx (unFQDN z) s = ((L, some e), s1) →
        GetRecords g ctx z s = .ret .nil (some e) s1) := by
  constructor
  · intro L s1 hg
    simp [GetRecords, hg]
  · intro L e s1 hg
    simp [GetRecords, hg]

theorem GetRecords_returns_fetched_or_error_witness :
    GetRecords demoGet () (ascii "example.com.")
        [aRecord "www" 300 "192.0.2.1", aRecord "mail" 600 "192.0.2.2"]
      = .ret (.mk [aRecord "www" 300 "192.0.2.1", aRecord "mail" 600 "192.0.2.2"]) none
          [aRecord "www" 300 "192.0.2.1", aRecord "mail" 600 "192.0.2.2"]
    ∧ GetRecords demoGet () (ascii "example.org.")
        [aRecord "www" 300 "192.0.2.1", aRecord "mail" 600 "192.0.2.2"]
      = .ret .nil (some 404)
          [aRecord "www" 300 "192.0.2.1", aRecord "mail" 600 "192.0.2.2"] :=
  ⟨(GetRecords_returns_fetched_or_error demoGet () (ascii "example.com.")
      [aRecord "www" 300 "192.0.2.1", aRecord "mail" 600 "192.0.2.2"]).1 _ _ (by decide),
   (GetRecords_returns_fetched_or_error demoGet () (ascii "example.org.")
      [aRecord "www" 300 "192.0.2.1", aRecord "mail" 600 "192.0.2.2"]).2 .nil _ _
      (by decide)⟩

/-- C6: every helper invocation made by `GetRecords`, `AppendRecords`, `SetRecords` and
`DeleteRecords` receives `unFQDN z` as its zone argument (the call log of the
instrumented helper holds no other zone, whatever the helper does and however the
operation ends); consequently, for `z` without a trailing dot, each operation called with
`z ++ "."` behaves as the same operation called with `z`. -/
theorem zone_normalized_before_remote_calls (g : ListHelper κ σ ε) (h : EntryHelper κ σ ε)
    (ctx : κ) (z : GoString) (records : Slice) (s : σ) :
    (GetRecords (tracedList g) ctx z (s, [])).state.2 = [unFQDN z]
    ∧ (∀ c ∈ (AppendRecords (traced h) ctx z records (s, [])).state.2, c.1 = unFQDN z)
    ∧ (∀ c ∈ (SetRecords (traced h) ctx z records (s, [])).state.2, c.1 = unFQDN z)
    ∧ (∀ c ∈ (DeleteRecords (traced h) ctx z records (s, [])).state.2, c.1 = unFQDN z)
    ∧ ((∀ t, z ≠ t ++ ascii ".") →
        GetRecords g ctx (z ++ ascii ".") s = GetRecords g ctx z s
        ∧ AppendRecords h ctx (z ++ ascii ".") records s = AppendRecords h ctx z records s
        ∧ SetRecords h ctx (z ++ ascii ".") records s = SetRecords h ctx z records s
        ∧ DeleteRecords h ctx (z ++ ascii ".") records s
            = DeleteRecords h ctx z records s) := by
  refine ⟨?_, ?_, ?_, ?_, ?_⟩
  · rcases hstep : g ctx (unFQDN z) s with ⟨⟨rs, err⟩, s1⟩
    cases err <;> simp [GetRecords, tracedList, hstep, Outcome.state]
  · exact appendLoop_log_domain h ctx z records.elems .nil s [] (by simp)
  · rw [SetRecords_eq_DeleteRecords]
    exact deleteLoop_log_domain h ctx z records.elems .nil s [] (by simp)
  · exact deleteLoop_log_domain h ctx z records.elems .nil s [] (by simp)
  · intro hz
    have hu : unFQDN (z ++ ascii ".") = unFQDN z := by
      rw [unFQDN_append_dot, unFQDN_of_no_dot z hz]
    refine ⟨?_, ?_, ?_, ?_⟩
    · simp [GetRecords, hu]
    · exact appendLoop_congr_zone h ctx _ _ hu records.elems .nil s
    · rw [SetRecords_eq_DeleteRecords, SetRecords_eq_DeleteRecords]
      exact deleteLoop_congr_zone h ctx _ _ hu records.elems .nil s
    · exact deleteLoop_congr_zone h ctx _ _ hu records.elems .nil s

theorem zone_normalized_before_remote_calls_witness :
    (∀ t, ascii "example.com" ≠ t ++ ascii ".")
    ∧ (GetRecords (tracedList demoGet) () (ascii "example.com.")
        ([aRecord "www" 300 "192.0.2.1"], [])).state.2 = [ascii "example.com"]
    ∧ GetRecords demoGet () (ascii "example.com" ++ ascii ".") [aRecord "www" 300 "192.0.2.1"]
        = GetRecords demoGet () (ascii "example.com") [aRecord "www" 300 "192.0.2.1"]
    ∧ AppendRecords demoAdd () (ascii "example.com" ++ ascii ".")
          (.mk [aRecord "mail" 600 "192.0.2.2"]) [aRecord "www" 300 "192.0.2.1"]
        = AppendRecords demoAdd () (ascii "example.com")
          (.mk [aRecord "mail" 600 "192.0.2.2"]) [aRecord "www" 300 "192.0.2.1"] :=
  ⟨ascii_example_no_dot,
   (zone_normalized_before_remote_calls demoGet demoAdd () (ascii "example.com.")
      (.mk [aRecord "mail" 600 "192.0.2.2"]) [aRecord "www" 300 "192.0.2.1"]).1,
   ((zone_normalized_before_remote_calls demoGet demoAdd () (ascii "example.com")
      (.mk [aRecord "mail" 600 "192.0.2.2"]) [aRecord "www" 300 "192.0.2.1"]).2.2.2.2
      ascii_example_no_dot).1,
   ((zone_normalized_before_remote_calls demoGet demoAdd () (ascii "example.com")
      (.mk [aRecord "mail" 600 "192.0.2.2"]) [aRecord "www" 300 "192.0.2.1"]).2.2.2.2
      ascii_example_no_dot).2.1⟩

/-- C8: for every zone and every input list of `n` records (non-nil interface values) on
which every call of `addDNSEntry` succeeds, `AppendRecords` returns no error and a list of
exactly `n` records whose `k`-th element is the record the helper returned for the `k`-th
input, the helper being invoked once per input in input order; for the empty input it
returns the nil slice, no error, and makes no remote call. -/
theorem AppendRecords_returns_added (h : EntryHelper κ σ ε) (ctx : κ) (z : GoString)
    (rs : List Record) (s : σ)
    (hin : ∀ r ∈ rs, r ≠ Record.nil)
    (hok : ∀ o ∈ (runSteps (h ctx (unFQDN z)) rs s).1, o.2 = none) :
    AppendRecords (traced h) ctx z (.mk rs) (s, [])
      = .ret (Slice.ofAppends ((runSteps (h ctx (unFQDN z)) rs s).1.map Prod.fst)) none
          ((runSteps (h ctx (unFQDN z)) rs s).2, rs.map (fun r => (unFQDN z, r)))
    ∧ AppendRecords h ctx z (.mk rs) s
      = .ret (Slice.ofAppends ((runSteps (h ctx (unFQDN z)) rs s).1.map Prod.fst)) none
          (runSteps (h ctx (unFQDN z)) rs s).2
    ∧ (Slice.ofAppends ((runSteps (h ctx (unFQDN z)) rs s).1.map Prod.fst)).elems.length
        = rs.length
    ∧ (∀ k (hk : k < rs.length),
        (Slice.ofAppends ((runSteps (h ctx (unFQDN z)) rs s).1.map Prod.fst)).elems[k]?
          = some (h ctx (unFQDN z) (rs.get ⟨k, hk⟩)
              (runSteps (h ctx (unFQDN z)) (rs.take k) s).2).1.1)
    ∧ AppendRecords (traced h) ctx z .nil (s, []) = .ret .nil none (s, [])
    ∧ AppendRecords (traced h) ctx z (.mk []) (s, []) = .ret .nil none (s, []) := by
  refine ⟨?_, ?_, ?_, ?_, ?_, ?_⟩
  · unfold AppendRecords
    simp only [Slice.elems]
    rw [appendLoop_success (traced h) ctx z rs .nil (s, []) hin
      (by rw [runSteps_traced]; exact hok)]
    rw [runSteps_traced]
    simp [Slice.ofAppends]
  · unfold AppendRecords
    simp only [Slice.elems]
    rw [appendLoop_success h ctx z rs .nil s hin hok]
    rfl
  · rw [ofAppends_elems, List.length_map, runSteps_length]
  · intro k hk
    rw [ofAppends_elems, List.getElem?_map, runSteps_getElem _ _ _ k hk]
    rfl
  · simp [AppendRecords, Slice.elems, AppendRecords.loop]
  · simp [AppendRecords, Slice.elems, AppendRecords.loop]

theorem AppendRecords_returns_added_witness :
    AppendRecords (traced demoAdd) () (ascii "example.com.")
        (.mk [aRecord "www" 300 "192.0.2.1", aRecord "mail" 600 "192.0.2.2"]) ([], [])
      = .ret (.mk [aRecord "www" 300 "192.0.2.1", aRecord "mail" 600 "192.0.2.2"]) none
          ([aRecord "www" 300 "192.0.2.1", aRecord "mail" 600 "192.0.2.2"],
           [(ascii "example.com", aRecord "www" 300 "192.0.2.1"),
            (ascii "example.com", aRecord "mail" 600 "192.0.2.2")]) :=
  (AppendRecords_returns_added demoAdd () (ascii "example.com.")
    [aRecord "www" 300 "192.0.2.1", aRecord "mail" 600 "192.0.2.2"] []
    (by decide) (by decide)).1

/-- C10 (as stated, refuted): on a helper whose every call succeeds (nil error) while
handing back the nil interface value, `SetRecords` and `DeleteRecords` do not return the
helper's records: the calls `setRecord.RR()` (line 82) and `deletedRecord.RR()` (line 63)
made for the TTL rescaling panic, so neither operation returns at all. -/
theorem SetRecords_DeleteRecords_panic_on_nil_success :
    (∀ o ∈ (runSteps (demoAck () (unFQDN (ascii "example.com.")))
        [aRecord "www" 300 "192.0.2.1"] []).1, o.2 = none)
    ∧ SetRecords demoAck () (ascii "example.com.") (.mk [aRecord "www" 300 "192.0.2.1"]) []
        = .panic []
    ∧ DeleteRecords demoAck () (ascii "example.com.") (.mk [aRecord "www" 300 "192.0.2.1"]) []
        = .panic []
    ∧ SetRecords demoAck () (ascii "example.com.") (.mk [aRecord "www" 300 "192.0.2.1"]) []
        ≠ .ret (Slice.ofAppends ((runSteps (demoAck () (unFQDN (ascii "example.com.")))
              [aRecord "www" 300 "192.0.2.1"] []).1.map Prod.fst)) none
            (runSteps (demoAck () (unFQDN (ascii "example.com.")))
              [aRecord "www" 300 "192.0.2.1"] []).2
    ∧ DeleteRecords demoAck () (ascii "example.com.") (.mk [aRecord "www" 300 "192.0.2.1"]) []
        ≠ .ret (Slice.ofAppends ((runSteps (demoAck () (unFQDN (ascii "example.com.")))
              [aRecord "www" 300 "192.0.2.1"] []).1.map Prod.fst)) none
            (runSteps (demoAck () (unFQDN (ascii "example.com.")))
              [aRecord "www" 300 "192.0.2.1"] []).2 := by
  refine ⟨?_, ?_, ?_, ?_, ?_⟩ <;> decide

/-- C10 (amended): for every zone and every input list on which every call of the helper
succeeds and hands back a record (a non-nil interface value with the nil error),
`SetRecords` and `DeleteRecords` return no error and exactly the list of records the
helper returned, in input order, every field including the TTL being as the helper
returned it: the rescaling `TTL * time.Second` of lines 68 and 86 acts on the copy
returned by `RR()`. -/
theorem SetRecords_DeleteRecords_return_helper_records (h : EntryHelper κ σ ε) (ctx : κ)
    (z : GoString) (rs : List Record) (s : σ)
    (hok : ∀ o ∈ (runSteps (h ctx (unFQDN z)) rs s).1, o.1 ≠ Record.nil ∧ o.2 = none) :
    SetRecords h ctx z (.mk rs) s
      = .ret (Slice.ofAppends ((runSteps (h ctx (unFQDN z)) rs s).1.map Prod.fst)) none
          (runSteps (h ctx (unFQDN z)) rs s).2
    ∧ DeleteRecords h ctx z (.mk rs) s
      = .ret (Slice.ofAppends ((runSteps (h ctx (unFQDN z)) rs s).1.map Prod.fst)) none
          (runSteps (h ctx (unFQDN z)) rs s).2
    ∧ (Slice.ofAppends ((runSteps (h ctx (unFQDN z)) rs s).1.map Prod.fst)).elems
        = (runSteps (h ctx (unFQDN z)) rs s).1.map Prod.fst
    ∧ (∀ k (hk : k < rs.length),
        (Slice.ofAppends ((runSteps (h ctx (unFQDN z)) rs s).1.map Prod.fst)).elems[k]?
          = some (h ctx (unFQDN z) (rs.get ⟨k, hk⟩)
              (runSteps (h ctx (unFQDN z)) (rs.take k) s).2).1.1) := by
  have hd : DeleteRecords h ctx z (.mk rs) s
      = .ret (Slice.ofAppends ((runSteps (h ctx (unFQDN z)) rs s).1.map Prod.fst)) none
          (runSteps (h ctx (unFQDN z)) rs s).2 := by
    unfold DeleteRecords
    simp only [Slice.elems]
    rw [deleteLoop_success h ctx z rs .nil s hok]
    rfl
  refine ⟨?_, hd, ofAppends_elems _, ?_⟩
  · rw [SetRecords_eq_DeleteRecords]
    exact hd
  · intro k hk
    rw [ofAppends_elems, List.getElem?_map, runSteps_getElem _ _ _ k hk]
    rfl

theorem SetRecords_DeleteRecords_return_helper_records_witness :
    DeleteRecords demoRemove () (ascii "example.com.")
        (.mk [aRecord "mail" 600 "192.0.2.2", aRecord "www" 300 "192.0.2.1"])
        [aRecord "www" 300 "192.0.2.1", aRecord "mail" 600 "192.0.2.2"]
      = .ret (.mk [aRecord "mail" 600 "192.0.2.2", aRecord "www" 300 "192.0.2.1"]) none [] :=
  (SetRecords_DeleteRecords_return_helper_records demoRemove () (ascii "example.com.")
    [aRecord "mail" 600 "192.0.2.2", aRecord "www" 300 "192.0.2.1"]
    [aRecord "www" 300 "192.0.2.1", aRecord "mail" 600 "192.0.2.2"] (by decide)).2.1

end Claims

/-! ## Upsert through `SetRecords` on the modelled remote zone -/

theorem upsert_of_absent (e : DNSEntry) (l : List DNSEntry)
    (hl : ∀ x ∈ l, sameNameType e.Name e.Typ x = false) : upsert e l = l ++ [e] := by
  induction l with
  | nil => rfl
  | cons x xs ih =>
    have hx : sameNameType e.Name e.Typ x = false := hl x (by simp)
    simp only [upsert, hx, Bool.false_eq_true, if_false, List.cons_append]
    rw [ih (fun y hy => hl y (List.mem_cons_of_mem _ hy))]

theorem upsert_replaces_last (e e1 : DNSEntry) (l : List DNSEntry)
    (hl : ∀ x ∈ l, sameNameType e.Name e.Typ x = false)
    (h1 : sameNameType e.Name e.Typ e1 = true) : upsert e (l ++ [e1]) = l ++ [e] := by
  induction l with
  | nil => simp [upsert, h1]
  | cons x xs ih =>
    have hx : sameNameType e.Name e.Typ x = false := hl x (by simp)
    have ih2 := ih (fun y hy => hl y (List.mem_cons_of_mem _ hy))
    show upsert e (x :: (xs ++ [e1])) = x :: (xs ++ [e])
    simp only [upsert, hx, Bool.false_eq_true, if_false, ih2]

theorem sameNameType_iff (name typ : GoString) (x : DNSEntry) :
    sameNameType name typ x = true ↔ (x.Name = name ∧ x.Typ = typ) := by
  simp [sameNameType]

theorem SetRecords_single_modelled (κ ε : Type) (ctx : κ) (zone : GoString) (rr : RR)
    (s : RemoteZones) :
    SetRecords (updateDNSEntry κ ε) ctx zone (.mk [.val rr]) s
      = .ret (.mk [toRecord (toEntry rr)]) none
          (fun d => if d = unFQDN zone then upsert (toEntry rr) (s d) else s d) := by
  simp [SetRecords, SetRecords.loop, updateDNSEntry, Slice.elems, Slice.append, toRecord,
    Record.RR]

/-- C9 (on `updateDNSEntry` as the specification describes it): for every remote state
whose zone holds no entry with `(name = "www", type = "A")`, `SetRecords` with one such
record returns without error and adds exactly one entry to the zone, leaving the other
entries and the other zones as they were; a second `SetRecords` for the same
`(name, type)` with another content returns without error and leaves exactly one entry
for that `(name, type)`, carrying the new content, the zone having one entry more than at
the start. -/
theorem SetRecords_upserts_without_duplicates (κ ε : Type) (ctx : κ) (zone : GoString)
    (s : RemoteZones) (ttl1 ttl2 : Duration) (c1 c2 : GoString)
    (habsent : ∀ x ∈ s (unFQDN zone), ¬ (x.Name = ascii "www" ∧ x.Typ = ascii "A")) :
    SetRecords (updateDNSEntry κ ε) ctx zone (.mk [.val (wwwA ttl1 c1)]) s
      = .ret (.mk [toRecord (toEntry (wwwA ttl1 c1))]) none
          (SetRecords (updateDNSEntry κ ε) ctx zone (.mk [.val (wwwA ttl1 c1)]) s).state
    ∧ (SetRecords (updateDNSEntry κ ε) ctx zone (.mk [.val (wwwA ttl1 c1)]) s).state
          (unFQDN zone)
        = s (unFQDN zone) ++ [toEntry (wwwA ttl1 c1)]
    ∧ (∀ d, d ≠ unFQDN zone →
        (SetRecords (updateDNSEntry κ ε) ctx zone (.mk [.val (wwwA ttl1 c1)]) s).state d
          = s d)
    ∧ SetRecords (updateDNSEntry κ ε) ctx zone (.mk [.val (wwwA ttl2 c2)])
          (SetRecords (updateDNSEntry κ ε) ctx zone (.mk [.val (wwwA ttl1 c1)]) s).state
        = .ret (.mk [toRecord (toEntry (wwwA ttl2 c2))]) none
            (SetRecords (updateDNSEntry κ ε) ctx zone (.mk [.val (wwwA ttl2 c2)])
              (SetRecords (updateDNSEntry κ ε) ctx zone
                (.mk [.val (wwwA ttl1 c1)]) s).state).state
    ∧ (SetRecords (updateDNSEntry κ ε) ctx zone (.mk [.val (wwwA ttl2 c2)])
          (SetRecords (updateDNSEntry κ ε) ctx zone (.mk [.val (wwwA ttl1 c1)]) s).state).state
          (unFQDN zone)
        = s (unFQDN zone) ++ [toEntry (wwwA ttl2 c2)]
    ∧ ((SetRecords (updateDNSEntry κ ε) ctx zone (.mk [.val (wwwA ttl2 c2)])
          (SetRecords (updateDNSEntry κ ε) ctx zone (.mk [.val (wwwA ttl1 c1)]) s).state).state
          (unFQDN zone)).filter (fun x => decide (x.Name = ascii "www" ∧ x.Typ = ascii "A"))
        = [toEntry (wwwA ttl2 c2)]
    ∧ (toEntry (wwwA ttl2 c2)).Content = c2 := by
  have hab1 : ∀ x ∈ s (unFQDN zone),
      sameNameType (toEntry (wwwA ttl1 c1)).Name (toEntry (wwwA ttl1 c1)).Typ x = false := by
    intro x hx
    have := habsent x hx
    cases hsn : sameNameType (toEntry (wwwA ttl1 c1)).Name (toEntry (wwwA ttl1 c1)).Typ x with
    | false => rfl
    | true => exact absurd ((sameNameType_iff _ _ x).1 hsn) this
  have hab2 : ∀ x ∈ s (unFQDN zone),
      sameNameType (toEntry (wwwA ttl2 c2)).Name (toEntry (wwwA ttl2 c2)).Typ x = false :=
    hab1
  have hlast : sameNameType (toEntry (wwwA ttl2 c2)).Name (toEntry (wwwA ttl2 c2)).Typ
      (toEntry (wwwA ttl1 c1)) = true := by
    simp [sameNameType, toEntry, wwwA]
  have hfilter : (s (unFQDN zone)).filter
      (fun x => decide (x.Name = ascii "www" ∧ x.Typ = ascii "A")) = [] := by
    rw [List.filter_eq_nil_iff]
    intro x hx
    simpa using habsent x hx
  rw [SetRecords_single_modelled, SetRecords_single_modelled]
  simp only [Outcome.state, if_true, upsert_of_absent _ _ hab1,
    upsert_replaces_last _ _ _ hab2 hlast, List.filter_append, hfilter, List.nil_append]
  refine ⟨trivial, trivial, ?_, trivial, trivial, ?_, rfl⟩
  · intro d hd
    simp [hd]
  · simp [toEntry, wwwA]

theorem SetRecords_upserts_without_duplicates_witness :
    (∀ x ∈ [({ Name := ascii "mail", Expire := 300, Typ := ascii "A",
               Content := ascii "192.0.2.2" } : DNSEntry)],
        ¬ (x.Name = ascii "www" ∧ x.Typ = ascii "A"))
    ∧ (SetRecords (updateDNSEntry Unit Nat) () (ascii "example.com.")
          (.mk [.val (wwwA (600 * Second) (ascii "192.0.2.9"))])
          (SetRecords (updateDNSEntry Unit Nat) () (ascii "example.com.")
            (.mk [.val (wwwA (300 * Second) (ascii "192.0.2.1"))])
            (fun _ => [{ Name := ascii "mail", Expire := 300, Typ := ascii "A",
                         Content := ascii "192.0.2.2" }])).state).state
          (unFQDN (ascii "example.com."))
        = [{ Name := ascii "mail", Expire := 300, Typ := ascii "A",
             Content := ascii "192.0.2.2" },
           { Name := ascii "www", Expire := 600, Typ := ascii "A",
             Content := ascii "192.0.2.9" }] :=
  ⟨by decide,
   (SetRecords_upserts_without_duplicates Unit Nat () (ascii "example.com.")
      (fun _ => [{ Name := ascii "mail", Expire := 300, Typ := ascii "A",
                   Content := ascii "192.0.2.2" }])
      (300 * Second) (600 * Second) (ascii "192.0.2.1") (ascii "192.0.2.9")
      (by decide)).2.2.2.2.1⟩

end Transip
